import Mathlib

/-!
Verification of the static `data-cy` suggestion scanner.

This file gives a shallow embedding of the two core units of the
repository — the element classifier of `src/static/scanner.js`
(`extractSuggestionsFromAST` and the per-file loop of `run`) and the
deterministic namer of `src/utils/nameGenerator.js` (`slugify` and
`generateTag`) — and proves the specified properties about them.

Strings are modelled as Lean `String`s (lists of characters); the
JavaScript string operations used by the source (`trim`, `toLowerCase`,
`split`, `join`, `slice`, regular-expression replacement on the ASCII
classes that appear in the code) are translated to explicit
character-list functions below.
-/

/-! ## Character utilities (JS string primitives used by the source) -/

/-- Whitespace as recognised by JavaScript `trim` (ASCII part). -/
def isJsWs (c : Char) : Bool :=
  c = ' ' || c = '\t' || c = '\n' || c = '\r' || c = Char.ofNat 11 || c = Char.ofNat 12

/-- JS `String.prototype.trim` on a character list. -/
def trimC (l : List Char) : List Char :=
  ((l.dropWhile isJsWs).reverse.dropWhile isJsWs).reverse

/-- JS `String.prototype.trim`. -/
def trimS (s : String) : String := ⟨trimC s.data⟩

/-- ASCII lower-casing, JS `toLowerCase` on the character range the code uses. -/
def lowerC (c : Char) : Char :=
  if 'A' ≤ c ∧ c ≤ 'Z' then Char.ofNat (c.toNat + 32) else c

/-- JS `String.prototype.toLowerCase`. -/
def lowerS (s : String) : String := ⟨s.data.map lowerC⟩

/-- Characters matching the regex class `[a-z0-9]` of `slugify`. -/
def isSlugChar (c : Char) : Bool :=
  ('a' ≤ c && c ≤ 'z') || ('0' ≤ c && c ≤ '9')

/-- Characters matching `[a-z0-9]` with the `i` flag (used for `compPath`). -/
def isSlugCharI (c : Char) : Bool :=
  isSlugChar c || ('A' ≤ c && c ≤ 'Z')

/-- `replace(/[^P]+/g, '-')` : every maximal run of characters not
satisfying `p` becomes a single `'-'`.  The boolean flag records whether
the previous character was part of such a run (its dash already emitted). -/
def collapseGo (p : Char → Bool) : Bool → List Char → List Char
  | _, [] => []
  | inRun, c :: rest =>
    if p c then c :: collapseGo p false rest
    else if inRun then collapseGo p true rest
    else '-' :: collapseGo p true rest

/-- Drop a single leading dash (one half of the edge-dash replacement). -/
def dropLeadDash : List Char → List Char
  | [] => []
  | c :: rest => if c = '-' then rest else c :: rest

/-- `replace(/(^-|-$)/g,'')` : drop one leading and one trailing dash. -/
def stripEdgeDash (l : List Char) : List Char :=
  (dropLeadDash (dropLeadDash l).reverse).reverse

/-- Decimal digit character, JS `String(n)` building block. -/
def digitChar (d : Nat) : Char := Char.ofNat (48 + d)

/-- Fuel-driven decimal printer; `fuel` bounds the number of divisions. -/
def natDecGo : Nat → Nat → List Char → List Char
  | 0, _, acc => acc
  | fuel + 1, n, acc =>
    if n < 10 then digitChar n :: acc
    else natDecGo fuel (n / 10) (digitChar (n % 10) :: acc)

/-- JS `String(n)` for a natural number: its decimal digits. -/
def natToDec (n : Nat) : List Char := natDecGo (n + 1) n []

/-- JS `parts.join('-')`. -/
def joinDash : List String → String
  | [] => ""
  | [p] => p
  | p :: rest => p ++ "-" ++ joinDash rest

/-- JS `words.join(' ')` on character-list words. -/
def joinSp : List (List Char) → List Char
  | [] => []
  | [w] => w
  | w :: rest => w ++ ' ' :: joinSp rest

/-- JS `s.split(' ')` (split at every single space, keeping empty segments). -/
def splitSpGo (acc : List Char) : List Char → List (List Char)
  | [] => [acc.reverse]
  | c :: rest => if c = ' ' then acc.reverse :: splitSpGo [] rest else splitSpGo (c :: acc) rest

/-- JS `s.split(' ')`. -/
def splitSp (l : List Char) : List (List Char) := splitSpGo [] l

/-- JS `s.split('\n')[0]`: the first line. -/
def firstLineC (l : List Char) : List Char := l.takeWhile (fun c => c ≠ '\n')

/-! ## The namer (`src/utils/nameGenerator.js`) -/

/-- `slugify` on character lists:
`s.toLowerCase().replace(/[^a-z0-9]+/g,'-').replace(/(^-|-$)/g,'').slice(0,60)`. -/
def slugChars (l : List Char) : List Char :=
  (stripEdgeDash (collapseGo isSlugChar false (l.map lowerC))).take 60

/-- `slugify` of `src/utils/nameGenerator.js`. -/
def slugify (s : String) : String := ⟨slugChars s.data⟩

/-- The argument object of `generateTag`; the scanner passes only
`tag`, `text` and `index`, the remaining fields stay at their JS
`undefined` (falsy) defaults. -/
structure TagInfo where
  tag : String
  text : String := ""
  aria : String := ""
  placeholder : String := ""
  alt : String := ""
  compPath : String := ""
  index : Option Nat := Option.none
deriving DecidableEq

/-- JS `a || b` on strings (empty string is falsy). -/
def jsOrS (a b : String) : String := if a = "" then b else a

/-- `info.compPath.replace(/[^a-z0-9]+/gi, '-').toLowerCase()`. -/
def compPathSlug (s : String) : String :=
  ⟨(collapseGo isSlugCharI false s.data).map lowerC⟩

/-- `info.tag === 'a' ? 'link' : info.tag`. -/
def roleFor (tag : String) : String := if tag = "a" then "link" else tag

/-- `text.split('\n')[0].trim().split(' ').slice(0,5).join(' ')`. -/
def textToken (t : String) : String :=
  ⟨joinSp ((splitSp (trimC (firstLineC t.data))).take 5)⟩

/-- The `parts` array built by `generateTag` just before `join('-')`. -/
def partsOf (info : TagInfo) : List String :=
  (if info.compPath ≠ "" then [compPathSlug info.compPath] else [])
    ++ [roleFor info.tag]
    ++ (let text := trimS (jsOrS info.text (jsOrS info.aria (jsOrS info.placeholder info.alt)))
        if text ≠ "" then [textToken text] else [])
    ++ (match info.index with
        | some i => [⟨natToDec i⟩]
        | Option.none => [])

/-- `generateTag` of `src/utils/nameGenerator.js`. -/
def generateTag (info : TagInfo) : String :=
  slugify (joinDash (partsOf info))

/-! ## JSX syntax-tree model (the Babel AST shapes the scanner inspects) -/

/-- Opening-element name node: a `JSXIdentifier` carries its name;
`JSXMemberExpression` / `JSXNamespacedName` are grouped as `other`
(the scanner of `scanner.js` reads a tag only from identifiers). -/
inductive JSXName where
  | ident (name : String)
  | other
deriving DecidableEq

/-- Attribute value shapes distinguished by the scanner:
a plain string literal (`attr.value.value`), an expression container
holding a string literal (`attr.value.expression.value`), an expression
container holding anything else, or no value at all. -/
inductive AttrVal where
  | absent
  | lit (s : String)
  | exprLit (s : String)
  | dyn
deriving DecidableEq

/-- A JSX attribute; spread attributes have no `name` node. -/
structure JSXAttr where
  name : Option String
  val : AttrVal
deriving DecidableEq

/-- JSX tree nodes relevant to the scanner: elements, text children,
expression containers (string-literal or other) and fragments. -/
inductive JSXNode where
  | element (name : JSXName) (attrs : List JSXAttr) (line : Option Nat)
      (children : List JSXNode)
  | text (value : String)
  | exprString (s : String)
  | exprOther
  | fragment (children : List JSXNode)

/-! ## The classifier (`extractSuggestionsFromAST` of `src/static/scanner.js`) -/

/-- The component skip: a `JSXIdentifier` name matching `/^[A-Z]/`. -/
def isComponentRef : JSXName → Bool
  | .ident s =>
      match s.data with
      | c :: _ => 'A' ≤ c && c ≤ 'Z'
      | [] => false
  | .other => false

/-- `tag`: the lowercased identifier name, `null` otherwise. -/
def tagOf : JSXName → Option String
  | .ident s => some (lowerS s)
  | .other => Option.none

/-- The fixed interactive-tag list of the scanner. -/
def interactiveTags : List String := ["button", "a", "input", "select", "textarea"]

/-- `hasRoleButton`: some attribute named `role` whose literal value is
`"button"` (`attr.value.value === "button"`). -/
def hasRoleButton (attrs : List JSXAttr) : Bool :=
  attrs.any fun a => a.name = some "role" && a.val = AttrVal.lit "button"

/-- `isInteractive`: tag in the fixed list, or a literal `role="button"`. -/
def isInteractive (tag : Option String) (attrs : List JSXAttr) : Bool :=
  (match tag with
   | some t => interactiveTags.contains t
   | Option.none => false) || hasRoleButton attrs

/-- `hasDataCy`: some attribute named `data-cy`. -/
def hasDataCy (attrs : List JSXAttr) : Bool :=
  attrs.any fun a => a.name = some "data-cy"

/-- The child-text loop: the first `JSXText` child with non-empty trimmed
value yields that trimmed value; a `JSXExpressionContainer` holding a
string literal yields its value verbatim (and stops the search even when
it is empty); otherwise the empty string. -/
def childText : List JSXNode → String
  | [] => ""
  | .text v :: rest => if trimS v ≠ "" then trimS v else childText rest
  | .exprString s :: _ => s
  | _ :: rest => childText rest

/-- `attr.value?.value || attr.value?.expression?.value || null`. -/
def attrHintVal : AttrVal → Option String
  | .lit s => if s = "" then Option.none else some s
  | .exprLit s => if s = "" then Option.none else some s
  | _ => Option.none

/-- The four mutable hint variables of the attribute `forEach`. -/
structure HintAttrs where
  aria : Option String
  placeholder : Option String
  alt : Option String
  title : Option String
deriving DecidableEq

/-- One step of the attribute `forEach`: an attribute without a name is
skipped, otherwise each matching hint variable is overwritten with the
extracted value (even when that value is `null`). -/
def hintStep (h : HintAttrs) (a : JSXAttr) : HintAttrs :=
  match a.name with
  | some nm =>
      let val := attrHintVal a.val
      { aria := if nm = "aria-label" then val else h.aria,
        placeholder := if nm = "placeholder" then val else h.placeholder,
        alt := if nm = "alt" then val else h.alt,
        title := if nm = "title" then val else h.title }
  | Option.none => h

/-- The attribute `forEach` of the scanner. -/
def foldHintAttrs (attrs : List JSXAttr) : HintAttrs :=
  attrs.foldl hintStep ⟨Option.none, Option.none, Option.none, Option.none⟩

/-- JS coercion of a possibly-`null` string to a (possibly falsy) string. -/
def optStr : Option String → String
  | some s => s
  | Option.none => ""

/-- `(text || aria || placeholder || alt || title || tag || "")`. -/
def nameSource (tag : Option String) (attrs : List JSXAttr)
    (children : List JSXNode) : String :=
  let h := foldHintAttrs attrs
  jsOrS (childText children)
    (jsOrS (optStr h.aria)
      (jsOrS (optStr h.placeholder)
        (jsOrS (optStr h.alt)
          (jsOrS (optStr h.title) (optStr tag)))))

/-- `tag || "el"`. -/
def tagOrEl (tag : Option String) : String := jsOrS (optStr tag) "el"

/-- One suggestion record pushed by the scanner. -/
structure Suggestion where
  file : String
  line : Option Nat
  tag : String
  text : String
  dataCy : String
deriving DecidableEq

/-- Whether the visitor pushes a suggestion for an element: not a
component reference, interactive, and not already carrying `data-cy`. -/
def emits (name : JSXName) (attrs : List JSXAttr) : Bool :=
  !isComponentRef name && isInteractive (tagOf name) attrs && !hasDataCy attrs

/-- The suggestion object pushed for an element when `emits` holds;
`k` is `suggestions.length` at push time. -/
def mkSuggestion (file : String) (name : JSXName) (attrs : List JSXAttr)
    (children : List JSXNode) (line : Option Nat) (k : Nat) : Suggestion :=
  let tag := tagOf name
  let src := nameSource tag attrs children
  { file := file, line := line, tag := tagOrEl tag, text := src,
    dataCy := generateTag { tag := tagOrEl tag, text := src, index := some k } }

mutual
/-- Pre-order visit of one node: the element's own suggestion (when
emitted) precedes those of its children; in every branch of the visitor
the children are traversed.  The second component is the updated
`suggestions.length`. -/
def scanNode (file : String) (n : JSXNode) (k : Nat) : List Suggestion × Nat :=
  match n with
  | .element name attrs line children =>
      if emits name attrs then
        let s := mkSuggestion file name attrs children line k
        let r := scanNodes file children (k + 1)
        (s :: r.1, r.2)
      else scanNodes file children k
  | .fragment children => scanNodes file children k
  | _ => ([], k)

/-- Left-to-right visit of a sibling list, threading `suggestions.length`. -/
def scanNodes (file : String) (ns : List JSXNode) (k : Nat) : List Suggestion × Nat :=
  match ns with
  | [] => ([], k)
  | n :: rest =>
      let r := scanNode file n k
      let r2 := scanNodes file rest r.2
      (r.1 ++ r2.1, r2.2)
end

/-- `extractSuggestionsFromAST(ast, code, file)`: the scan starts from an
empty `suggestions` array; the `code` parameter is accepted but unused,
as in the source. -/
def extractSuggestionsFromAST (ast : List JSXNode) (code : String) (file : String) :
    List Suggestion :=
  (scanNodes file ast 0).1

/-- One changed file of the `run` loop: its name, raw text and parsed tree. -/
structure SourceFile where
  file : String
  code : String
  ast : List JSXNode

/-- The per-file loop of `run`: `allSuggestions.push(...sug)` for each
file, each file scanned by a fresh `extractSuggestionsFromAST` call. -/
def runScan (files : List SourceFile) : List Suggestion :=
  files.foldl (fun acc f => acc ++ extractSuggestionsFromAST f.ast f.code f.file) []

/-! ## Traversal normal form

The scan threads `suggestions.length` through the tree.  To reason about
positions and ordinals we show it equals building, from the pre-order
list of emitted elements, one suggestion per element with consecutive
indices. -/

/-- The data of one emitted element needed to build its suggestion. -/
structure EmitRec where
  name : JSXName
  attrs : List JSXAttr
  line : Option Nat
  children : List JSXNode

mutual
/-- Pre-order list of elements of one node for which `emits` holds. -/
def emitNode : JSXNode → List EmitRec
  | .element name attrs line children =>
      (if emits name attrs then [⟨name, attrs, line, children⟩] else [])
        ++ emitNodes children
  | .fragment children => emitNodes children
  | _ => []

/-- Pre-order list of emitted elements of a sibling list. -/
def emitNodes : List JSXNode → List EmitRec
  | [] => []
  | n :: rest => emitNode n ++ emitNodes rest
end

/-- Build suggestions for a record list with consecutive indices from `k`. -/
def mkFrom (file : String) (k : Nat) : List EmitRec → List Suggestion
  | [] => []
  | r :: rest => mkSuggestion file r.name r.attrs r.children r.line k :: mkFrom file (k + 1) rest

/-! ## All elements of a tree (for the idempotence claim) -/

mutual
/-- Pre-order list of all element nodes (name and attributes) of a node. -/
def allElemsNode : JSXNode → List (JSXName × List JSXAttr)
  | .element name attrs _ children => (name, attrs) :: allElemsNodes children
  | .fragment children => allElemsNodes children
  | _ => []

/-- Pre-order list of all element nodes of a sibling list. -/
def allElemsNodes : List JSXNode → List (JSXName × List JSXAttr)
  | [] => []
  | n :: rest => allElemsNode n ++ allElemsNodes rest
end

/-! ## Specification-side definitions

These definitions follow the wording of the specification (not the
code); the theorems below compare them with the embedded code. -/

/-- Spec wording of the classification rule: the lowercased tag is one
of the fixed interactive set, or a `role` attribute carries the literal
value `"button"`. -/
def interactiveSpec (name : JSXName) (attrs : List JSXAttr) : Bool :=
  (match name with
   | .ident s => interactiveTags.contains (lowerS s)
   | .other => false) || hasRoleButton attrs

/-- The last attribute of a given name, if any (the value the mutable
variable of the attribute `forEach` ends up holding). -/
def lastMatchingAttr (attrs : List JSXAttr) (nm : String) : Option JSXAttr :=
  match attrs with
  | [] => Option.none
  | a :: rest =>
      match lastMatchingAttr rest nm with
      | some b => some b
      | Option.none => if a.name = some nm then some a else Option.none

/-- The hint contributed by the last attribute of a given name. -/
def lastAttrHint (attrs : List JSXAttr) (nm : String) : Option String :=
  match lastMatchingAttr attrs nm with
  | some a => attrHintVal a.val
  | Option.none => Option.none

/-- The claim's label-hint priority chain, exactly as worded: the first
text-bearing child's **trimmed** literal text, then `aria-label`,
`placeholder`, `alt`, `title`, the tag, the empty string. -/
def claimChildHint : List JSXNode → String
  | [] => ""
  | .text v :: rest => if trimS v ≠ "" then trimS v else claimChildHint rest
  | .exprString s :: _ => trimS s
  | _ :: rest => claimChildHint rest

/-- The claim's textHint: priority chain over the claim's extractors. -/
def claimTextHint (tag : Option String) (attrs : List JSXAttr)
    (children : List JSXNode) : String :=
  jsOrS (claimChildHint children)
    (jsOrS (optStr (lastAttrHint attrs "aria-label"))
      (jsOrS (optStr (lastAttrHint attrs "placeholder"))
        (jsOrS (optStr (lastAttrHint attrs "alt"))
          (jsOrS (optStr (lastAttrHint attrs "title")) (optStr tag)))))

/-- The amended textHint: as the claim, except that the text of a
string-literal expression child is used verbatim (not trimmed). -/
def specTextHint (tag : Option String) (attrs : List JSXAttr)
    (children : List JSXNode) : String :=
  jsOrS (childText children)
    (jsOrS (optStr (lastAttrHint attrs "aria-label"))
      (jsOrS (optStr (lastAttrHint attrs "placeholder"))
        (jsOrS (optStr (lastAttrHint attrs "alt"))
          (jsOrS (optStr (lastAttrHint attrs "title")) (optStr tag)))))

/-! ## Whitespace words (the spec's "split on whitespace") -/

/-- Splitting on whitespace and dropping empty fragments, with the
pending word accumulated in reverse. -/
def wsWordsGo (acc : List Char) : List Char → List (List Char)
  | [] => if acc = [] then [] else [acc.reverse]
  | c :: rest =>
      if isJsWs c then
        if acc = [] then wsWordsGo [] rest else acc.reverse :: wsWordsGo [] rest
      else wsWordsGo (c :: acc) rest

/-- The whitespace-separated words of a character list. -/
def wsWords (l : List Char) : List (List Char) := wsWordsGo [] l

/-- Reading decimal digits back as a number. -/
def decDecode (l : List Char) : Nat :=
  l.foldl (fun a c => 10 * a + (c.toNat - 48)) 0

/-- Digit characters. -/
def isDigitC (c : Char) : Bool := '0' ≤ c && c ≤ '9'

/-- The maximal run of digit characters at the end of a list. -/
def digitSuffix (l : List Char) : List Char :=
  (l.reverse.takeWhile isDigitC).reverse

/-- A candidate slug is "uncut" when its normalized form fits in the
60-character cap, so the final `slice(0, 60)` removes nothing. -/
def uncut (info : TagInfo) : Prop :=
  (stripEdgeDash (collapseGo isSlugChar false
    ((joinDash (partsOf info)).data.map lowerC))).length ≤ 60

instance (info : TagInfo) : Decidable (uncut info) := by
  unfold uncut
  infer_instance

theorem mkFrom_append (file : String) (k : Nat) (a b : List EmitRec) :
    mkFrom file k (a ++ b) = mkFrom file k a ++ mkFrom file (k + a.length) b := by
  induction a generalizing k with
  | nil => simp [mkFrom]
  | cons r rest ih =>
      simp only [List.cons_append, mkFrom, List.length_cons, List.append_eq]
      rw [ih (k + 1)]
      have h2 : k + 1 + rest.length = k + (rest.length + 1) := by omega
      rw [h2]

theorem mkFrom_length (file : String) (k : Nat) (rs : List EmitRec) :
    (mkFrom file k rs).length = rs.length := by
  induction rs generalizing k with
  | nil => rfl
  | cons r rest ih => simp [mkFrom, ih]

mutual
/-- The scan of one node in normal form. -/
theorem scanNode_eq (file : String) (n : JSXNode) (k : Nat) :
    scanNode file n k = (mkFrom file k (emitNode n), k + (emitNode n).length) := by
  cases n with
  | element name attrs line children =>
      by_cases h : emits name attrs = true
      · simp only [scanNode, emitNode, h, if_pos, if_true,
          scanNodes_eq file children (k + 1), List.singleton_append, mkFrom,
          List.length_cons, Prod.mk.injEq, true_and]
        omega
      · simp only [scanNode, emitNode, Bool.not_eq_true] at h ⊢
        simp only [h, if_false, Bool.false_eq_true, List.nil_append,
          scanNodes_eq file children k]
  | text v => simp [scanNode, emitNode, mkFrom]
  | exprString s => simp [scanNode, emitNode, mkFrom]
  | exprOther => simp [scanNode, emitNode, mkFrom]
  | fragment children => simp [scanNode, emitNode, scanNodes_eq file children k]

/-- The scan of a sibling list in normal form. -/
theorem scanNodes_eq (file : String) (ns : List JSXNode) (k : Nat) :
    scanNodes file ns k = (mkFrom file k (emitNodes ns), k + (emitNodes ns).length) := by
  cases ns with
  | nil => simp [scanNodes, emitNodes, mkFrom]
  | cons n rest =>
      simp only [scanNodes, emitNodes, scanNode_eq file n k,
        scanNodes_eq file rest (k + (emitNode n).length),
        mkFrom_append, List.length_append, Prod.mk.injEq, true_and]
      omega
end

/-- The extracted suggestions are the emitted records built from index 0. -/
theorem extract_eq (ast : List JSXNode) (code file : String) :
    extractSuggestionsFromAST ast code file = mkFrom file 0 (emitNodes ast) := by
  simp [extractSuggestionsFromAST, scanNodes_eq]

theorem mkFrom_get (file : String) (k : Nat) (rs : List EmitRec) (i : Nat)
    (h : i < (mkFrom file k rs).length) :
    (mkFrom file k rs).get ⟨i, h⟩
      = mkSuggestion file (rs.get ⟨i, by rw [mkFrom_length] at h; exact h⟩).name
          (rs.get ⟨i, by rw [mkFrom_length] at h; exact h⟩).attrs
          (rs.get ⟨i, by rw [mkFrom_length] at h; exact h⟩).children
          (rs.get ⟨i, by rw [mkFrom_length] at h; exact h⟩).line (k + i) := by
  induction rs generalizing k i with
  | nil => simp [mkFrom] at h
  | cons r rest ih =>
      cases i with
      | zero => simp [mkFrom]
      | succ j =>
          simp only [mkFrom, List.get_cons_succ, ih (k + 1) j]
          congr 1
          omega

mutual
/-- If no element of a node may emit, the node emits nothing. -/
theorem emitNode_nil (n : JSXNode)
    (h : ∀ p ∈ allElemsNode n, emits p.1 p.2 = false) : emitNode n = [] := by
  cases n with
  | element name attrs line children =>
      have h0 : emits name attrs = false := h (name, attrs) (by simp [allElemsNode])
      have hc : ∀ p ∈ allElemsNodes children, emits p.1 p.2 = false := by
        intro p hp
        exact h p (by simp [allElemsNode, hp])
      simp [emitNode, h0, emitNodes_nil children hc]
  | text v => simp [emitNode]
  | exprString s => simp [emitNode]
  | exprOther => simp [emitNode]
  | fragment children =>
      have hc : ∀ p ∈ allElemsNodes children, emits p.1 p.2 = false := by
        intro p hp
        exact h p (by simp [allElemsNode, hp])
      simp [emitNode, emitNodes_nil children hc]

/-- If no element of a sibling list may emit, the list emits nothing. -/
theorem emitNodes_nil (ns : List JSXNode)
    (h : ∀ p ∈ allElemsNodes ns, emits p.1 p.2 = false) : emitNodes ns = [] := by
  cases ns with
  | nil => simp [emitNodes]
  | cons n rest =>
      have h1 : ∀ p ∈ allElemsNode n, emits p.1 p.2 = false := by
        intro p hp
        exact h p (by simp [allElemsNodes, hp])
      have h2 : ∀ p ∈ allElemsNodes rest, emits p.1 p.2 = false := by
        intro p hp
        exact h p (by simp [allElemsNodes, hp])
      simp [emitNodes, emitNode_nil n h1, emitNodes_nil rest h2]
end

/-- The attribute `forEach` computes, in each of its four variables,
exactly the hint of the last attribute of that name. -/
theorem foldHintAttrs_eq_last (attrs : List JSXAttr) (h : HintAttrs) :
    attrs.foldl hintStep h =
      { aria := match lastMatchingAttr attrs "aria-label" with
                | some a => attrHintVal a.val
                | Option.none => h.aria,
        placeholder := match lastMatchingAttr attrs "placeholder" with
                | some a => attrHintVal a.val
                | Option.none => h.placeholder,
        alt := match lastMatchingAttr attrs "alt" with
                | some a => attrHintVal a.val
                | Option.none => h.alt,
        title := match lastMatchingAttr attrs "title" with
                | some a => attrHintVal a.val
                | Option.none => h.title } := by
  induction attrs generalizing h with
  | nil => simp [lastMatchingAttr]
  | cons a rest ih =>
      rw [List.foldl_cons, ih (hintStep h a)]
      have hfield : ∀ nm dflt,
          (match lastMatchingAttr (a :: rest) nm with
           | some b => attrHintVal b.val
           | Option.none => dflt)
          = (match lastMatchingAttr rest nm with
             | some b => attrHintVal b.val
             | Option.none =>
                 if a.name = some nm then attrHintVal a.val else dflt) := by
        intro nm dflt
        simp only [lastMatchingAttr]
        cases lastMatchingAttr rest nm with
        | some b => rfl
        | none =>
            by_cases hnm : a.name = some nm
            · simp [hnm]
            · simp [hnm]
      simp only [hfield]
      cases ha : a.name with
      | some nm =>
          simp only [hintStep, ha]
          congr 1 <;>
            (by_cases hx : nm = "aria-label" <;>
              by_cases hy : nm = "placeholder" <;>
                by_cases hz : nm = "alt" <;>
                  by_cases hw : nm = "title" <;>
                    simp_all)
      | none => simp [hintStep, ha]

/-- The scanner's `nameSource` equals the amended priority chain. -/
theorem nameSource_eq_spec (tag : Option String) (attrs : List JSXAttr)
    (children : List JSXNode) :
    nameSource tag attrs children = specTextHint tag attrs children := by
  simp only [nameSource, specTextHint, foldHintAttrs, lastAttrHint,
    foldHintAttrs_eq_last attrs ⟨Option.none, Option.none, Option.none, Option.none⟩]

/-- On input whose only whitespace is the plain space, splitting at
single spaces and dropping empty segments is exactly whitespace-word
splitting. -/
theorem wsWordsGo_eq_filter (l : List Char) (acc : List Char)
    (h : ∀ c ∈ l, isJsWs c = true → c = ' ') :
    wsWordsGo acc l = (splitSpGo acc l).filter (fun w => w ≠ []) := by
  induction l generalizing acc with
  | nil =>
      by_cases hacc : acc = []
      · simp [wsWordsGo, splitSpGo, hacc]
      · have : acc.reverse ≠ [] := by simpa using hacc
        simp [wsWordsGo, splitSpGo, hacc, this]
  | cons c rest ih =>
      have hrest : ∀ d ∈ rest, isJsWs d = true → d = ' ' := by
        intro d hd
        exact h d (List.mem_cons_of_mem c hd)
      by_cases hws : isJsWs c = true
      · have hc : c = ' ' := h c (List.mem_cons_self c rest) hws
        subst hc
        by_cases hacc : acc = []
        · simp [wsWordsGo, splitSpGo, hacc, ih [] hrest, hws]
        · have : acc.reverse ≠ [] := by simpa using hacc
          simp [wsWordsGo, splitSpGo, hacc, ih [] hrest, hws, this]
      · have hcsp : ¬c = ' ' := by
          intro hc
          exact hws (by simp [hc, isJsWs])
        simp [wsWordsGo, splitSpGo, hws, hcsp, ih (c :: acc) hrest]

/-! ## Decimal printing: injectivity and digit shape -/

theorem natDecGo_acc (fuel n : Nat) (acc : List Char) :
    natDecGo fuel n acc = natDecGo fuel n [] ++ acc := by
  induction fuel generalizing n acc with
  | zero => simp [natDecGo]
  | succ fuel ih =>
      by_cases h : n < 10
      · simp [natDecGo, h]
      · simp only [natDecGo, h, if_false]
        rw [ih (n / 10) (digitChar (n % 10) :: acc), ih (n / 10) [digitChar (n % 10)]]
        simp

theorem digitChar_toNat (d : Nat) (h : d < 10) : (digitChar d).toNat = 48 + d := by
  interval_cases d <;> decide

theorem decDecode_natDecGo (fuel n : Nat) (h : n < fuel) :
    decDecode (natDecGo fuel n []) = n := by
  induction fuel generalizing n with
  | zero => omega
  | succ fuel ih =>
      by_cases h10 : n < 10
      · simp [natDecGo, h10, decDecode, digitChar_toNat n h10]
      · simp only [natDecGo, h10, if_false]
        rw [natDecGo_acc fuel (n / 10) [digitChar (n % 10)]]
        have hlt : n / 10 < fuel := by
          have := Nat.div_lt_self (by omega : 0 < n) (by omega : 1 < 10)
          omega
        have hmod : n % 10 < 10 := Nat.mod_lt n (by omega)
        simp only [decDecode, List.foldl_append, List.foldl_cons, List.foldl_nil]
        have : List.foldl (fun a c => 10 * a + (c.toNat - 48)) 0 (natDecGo fuel (n / 10) []) = n / 10 :=
          ih (n / 10) hlt
        rw [this, digitChar_toNat (n % 10) hmod]
        omega

theorem natToDec_inj (m n : Nat) (h : natToDec m = natToDec n) : m = n := by
  have hm := decDecode_natDecGo (m + 1) m (by omega)
  have hn := decDecode_natDecGo (n + 1) n (by omega)
  rw [natToDec] at h
  rw [natToDec] at h
  rw [h] at hm
  omega

/-- Decimal digits are digit characters. -/
theorem natDecGo_digits (fuel n : Nat) (acc : List Char)
    (hacc : ∀ c ∈ acc, '0' ≤ c ∧ c ≤ '9') :
    ∀ c ∈ natDecGo fuel n acc, '0' ≤ c ∧ c ≤ '9' := by
  induction fuel generalizing n acc with
  | zero => simpa [natDecGo] using hacc
  | succ fuel ih =>
      by_cases h10 : n < 10
      · intro c hc
        simp only [natDecGo, h10, if_true] at hc
        rcases List.mem_cons.mp hc with hc | hc
        · subst hc
          constructor <;> (interval_cases n <;> decide)
        · exact hacc c hc
      · intro c hc
        simp only [natDecGo, h10, if_false] at hc
        refine ih (n / 10) (digitChar (n % 10) :: acc) ?_ c hc
        intro d hd
        rcases List.mem_cons.mp hd with hd | hd
        · subst hd
          have hmod : n % 10 < 10 := Nat.mod_lt n (by omega)
          constructor <;> (interval_cases hmm : (n % 10) <;> decide)
        · exact hacc d hd

theorem natToDec_digits (n : Nat) : ∀ c ∈ natToDec n, '0' ≤ c ∧ c ≤ '9' := by
  refine natDecGo_digits (n + 1) n [] ?_
  intro c hc
  simp at hc

theorem natToDec_ne_nil (n : Nat) : natToDec n ≠ [] := by
  rw [natToDec]
  cases fuelEq : n + 1 with
  | zero => omega
  | succ fuel =>
      by_cases h10 : n < 10
      · simp [natDecGo, h10]
      · simp only [natDecGo, h10, if_false]
        rw [natDecGo_acc fuel (n / 10) [digitChar (n % 10)]]
        simp

/-! ## Slug structure lemmas -/

theorem charLe_iff (a b : Char) : (a ≤ b) ↔ a.toNat ≤ b.toNat := Iff.rfl

theorem lowerC_fixed (c : Char) (h : isSlugChar c = true) : lowerC c = c := by
  simp only [isSlugChar, Bool.or_eq_true, Bool.and_eq_true, decide_eq_true_eq] at h
  have hno : ¬('A' ≤ c ∧ c ≤ 'Z') := by
    simp only [charLe_iff] at h ⊢
    revert h
    show 97 ≤ c.toNat ∧ c.toNat ≤ 122 ∨ 48 ≤ c.toNat ∧ c.toNat ≤ 57 →
      ¬(65 ≤ c.toNat ∧ c.toNat ≤ 90)
    omega
  simp [lowerC, hno]

theorem lowerC_dash : lowerC '-' = '-' := by decide

theorem collapseGo_all (l : List Char) (b : Bool)
    (h : ∀ c ∈ l, isSlugChar c = true) : collapseGo isSlugChar b l = l := by
  induction l generalizing b with
  | nil => simp [collapseGo]
  | cons c rest ih =>
      have hc : isSlugChar c = true := h c (List.mem_cons_self c rest)
      have hrest : ∀ d ∈ rest, isSlugChar d = true := fun d hd => h d (List.mem_cons_of_mem c hd)
      simp [collapseGo, hc, ih false hrest]

/-- Collapsing a string that ends in a dash followed by an all-slug
suffix keeps that suffix, preceded by a dash unless everything before it
vanished into an ongoing run. -/
theorem collapseGo_dash_suffix (D : List Char) (hD : ∀ c ∈ D, isSlugChar c = true) :
    ∀ (X : List Char) (b : Bool),
      (∃ W, collapseGo isSlugChar b (X ++ '-' :: D) = W ++ '-' :: D)
      ∨ (b = true ∧ collapseGo isSlugChar b (X ++ '-' :: D) = D) := by
  intro X
  induction X with
  | nil =>
      intro b
      cases b with
      | false =>
          left
          refine ⟨[], ?_⟩
          have : isSlugChar '-' = false := by decide
          simp [collapseGo, this, collapseGo_all D true hD]
      | true =>
          right
          have : isSlugChar '-' = false := by decide
          simp [collapseGo, this, collapseGo_all D true hD]
  | cons c X ih =>
      intro b
      by_cases hc : isSlugChar c = true
      · left
        rcases ih false with ⟨W, hW⟩ | ⟨hb, _⟩
        · exact ⟨c :: W, by simp [collapseGo, hc, hW]⟩
        · exact absurd hb (by simp)
      · have hc' : isSlugChar c = false := by simpa using hc
        cases b with
        | false =>
            left
            rcases ih true with ⟨W, hW⟩ | ⟨_, hD2⟩
            · exact ⟨'-' :: W, by simp [collapseGo, hc', hW]⟩
            · exact ⟨[], by simp [collapseGo, hc', hD2]⟩
        | true =>
            rcases ih true with ⟨W, hW⟩ | ⟨_, hD2⟩
            · left
              exact ⟨W, by simp [collapseGo, hc', hW]⟩
            · right
              exact ⟨rfl, by simp [collapseGo, hc', hD2]⟩

theorem takeWhile_all_append (p : Char → Bool) (A : List Char) (c : Char)
    (B : List Char) (hA : ∀ x ∈ A, p x = true) (hc : p c = false) :
    (A ++ c :: B).takeWhile p = A := by
  induction A with
  | nil => simp [List.takeWhile_cons, hc]
  | cons a A ih =>
      have ha : p a = true := hA a (List.mem_cons_self a A)
      have hA' : ∀ x ∈ A, p x = true := fun x hx => hA x (List.mem_cons_of_mem a hx)
      simp [List.takeWhile_cons, ha, ih hA']

theorem digitSuffix_append_dash (Y D : List Char)
    (hD : ∀ c ∈ D, isDigitC c = true) :
    digitSuffix (Y ++ '-' :: D) = D := by
  have hrev : (Y ++ '-' :: D).reverse = D.reverse ++ '-' :: Y.reverse := by
    simp
  have hDrev : ∀ c ∈ D.reverse, isDigitC c = true := by
    intro c hc
    exact hD c (List.mem_reverse.mp hc)
  have hdash : isDigitC '-' = false := by decide
  simp [digitSuffix, hrev, takeWhile_all_append isDigitC D.reverse '-' Y.reverse hDrev hdash]

theorem digitSuffix_all (D : List Char) (hD : ∀ c ∈ D, isDigitC c = true) :
    digitSuffix D = D := by
  have hDrev : ∀ c ∈ D.reverse, isDigitC c = true := by
    intro c hc
    exact hD c (List.mem_reverse.mp hc)
  simp [digitSuffix, List.takeWhile_eq_self_iff.mpr hDrev]

/-! ## Structure of generated slugs -/

theorem strData_append (a b : String) : (a ++ b).data = a.data ++ b.data := rfl

theorem joinDash_cons_data (p : String) (rest : List String) :
    ∃ t, (joinDash (p :: rest)).data = p.data ++ t := by
  cases rest with
  | nil => exact ⟨[], by simp [joinDash]⟩
  | cons q qs =>
      refine ⟨'-' :: (joinDash (q :: qs)).data, ?_⟩
      show (p ++ "-" ++ joinDash (q :: qs)).data = _
      simp [strData_append]

theorem joinDash_snoc_data (F : List String) (q : String) (hF : F ≠ []) :
    (joinDash (F ++ [q])).data = (joinDash F).data ++ '-' :: q.data := by
  induction F with
  | nil => exact absurd rfl hF
  | cons p F ih =>
      cases F with
      | nil =>
          show (p ++ "-" ++ joinDash [q]).data = _
          simp [joinDash, strData_append]
      | cons r rs =>
          show (p ++ "-" ++ joinDash ((r :: rs) ++ [q])).data = _
          rw [strData_append, strData_append, ih (by simp)]
          show p.data ++ "-".data ++ _ = (p ++ "-" ++ joinDash (r :: rs)).data ++ _
          simp [strData_append]

theorem dropLeadDash_length (x : List Char) :
    x.length ≤ (dropLeadDash x).length + 1 := by
  cases x with
  | nil => simp [dropLeadDash]
  | cons c rest =>
      by_cases hc : c = '-' <;> simp [dropLeadDash, hc]

theorem dropLeadDash_keep (c : Char) (l : List Char) (hc : ¬c = '-') :
    dropLeadDash (c :: l) = c :: l := by
  simp [dropLeadDash, hc]

theorem stripEdgeDash_ne_nil (c : Char) (l : List Char) (hc : ¬c = '-') :
    stripEdgeDash (c :: l) ≠ [] := by
  rw [stripEdgeDash, dropLeadDash_keep c l hc]
  intro hcontra
  have h1 : (dropLeadDash (c :: l).reverse) = [] := by
    have := congrArg List.reverse hcontra
    simpa using this
  have h2 := dropLeadDash_length (c :: l).reverse
  rw [h1] at h2
  simp at h2
  subst h2
  rw [show ([c] : List Char).reverse = [c] from rfl, dropLeadDash_keep c [] hc] at h1
  exact absurd h1 (by simp)

theorem slugChars_ne_nil (c : Char) (l : List Char) (hc : isSlugChar c = true) :
    slugChars (c :: l) ≠ [] := by
  have hcd : ¬c = '-' := by
    intro h
    subst h
    exact absurd hc (by decide)
  rw [slugChars]
  have hmap : (c :: l).map lowerC = c :: l.map lowerC := by
    simp [lowerC_fixed c hc]
  rw [hmap]
  have hcol : collapseGo isSlugChar false (c :: l.map lowerC)
      = c :: collapseGo isSlugChar false (l.map lowerC) := by
    simp [collapseGo, hc]
  rw [hcol]
  intro hcontra
  rcases List.take_eq_nil_iff.mp hcontra with h | h
  · omega
  · exact stripEdgeDash_ne_nil c _ hcd h

theorem lowerC_digit (c : Char) (h : isDigitC c = true) : lowerC c = c := by
  have : isSlugChar c = true := by
    simp only [isDigitC, Bool.and_eq_true] at h
    simp [isSlugChar, h]
  exact lowerC_fixed c this

theorem isSlugChar_of_digit (c : Char) (h : isDigitC c = true) : isSlugChar c = true := by
  simp only [isDigitC, Bool.and_eq_true] at h
  simp [isSlugChar, h]

/-- Stripping edge dashes preserves the dash-digits suffix shape. -/
theorem stripEdgeDash_form (R D : List Char) (hD : D ≠ [])
    (hdig : ∀ c ∈ D, isDigitC c = true)
    (hR : (∃ W, R = W ++ '-' :: D) ∨ R = D) :
    (∃ Y, stripEdgeDash R = Y ++ '-' :: D) ∨ stripEdgeDash R = D := by
  have hdashD : ∀ c ∈ D, ¬c = '-' := by
    intro c hc hdash
    subst hdash
    exact absurd (hdig '-' hc) (by decide)
  -- first step: dropLeadDash preserves the form
  have step1 : (∃ W, dropLeadDash R = W ++ '-' :: D) ∨ dropLeadDash R = D := by
    rcases hR with ⟨W, hW⟩ | hRD
    · cases W with
      | nil =>
          right
          simp [hW, dropLeadDash]
      | cons w W =>
          subst hW
          by_cases hw : w = '-'
          · subst hw
            left
            exact ⟨W, by simp [dropLeadDash]⟩
          · left
            exact ⟨w :: W, by simp [dropLeadDash, hw]⟩
    · right
      cases D with
      | nil => exact absurd rfl hD
      | cons d D' =>
          have : ¬d = '-' := hdashD d (List.mem_cons_self d D')
          simp [hRD, dropLeadDash, this]
  -- second step: the trailing character is a digit, so the reverse pass
  -- removes nothing
  have step2 : ∀ M, ((∃ W, M = W ++ '-' :: D) ∨ M = D) →
      (dropLeadDash M.reverse).reverse = M := by
    intro M hM
    have hlast : ∃ d t, M.reverse = d :: t ∧ ¬d = '-' := by
      cases hDrev : D.reverse with
      | nil =>
          exact absurd (by simpa using congrArg List.reverse hDrev) hD
      | cons d t =>
          have hdmem : d ∈ D := by
            have : d ∈ D.reverse := by simp [hDrev]
            exact List.mem_reverse.mp this
          rcases hM with ⟨W, hW⟩ | hMD
          · refine ⟨d, t ++ '-' :: W.reverse, ?_, hdashD d hdmem⟩
            simp [hW, hDrev]
          · exact ⟨d, t, by simp [hMD, hDrev], hdashD d hdmem⟩
    rcases hlast with ⟨d, t, hrev, hdne⟩
    rw [hrev, dropLeadDash_keep d t hdne, ← hrev]
    simp
  rw [stripEdgeDash, step2 (dropLeadDash R) step1]
  exact step1

/-- For an uncut slug with ordinal `i`, the trailing digit run of the
generated value is exactly the decimal ordinal. -/
theorem generateTag_digitSuffix (info : TagInfo) (i : Nat)
    (hidx : info.index = some i) (hcut : uncut info) :
    digitSuffix (generateTag info).data = natToDec i := by
  have hdig : ∀ c ∈ natToDec i, isDigitC c = true := by
    intro c hc
    have := natToDec_digits i c hc
    simp [isDigitC, this.1, this.2]
  have hslug : ∀ c ∈ natToDec i, isSlugChar c = true :=
    fun c hc => isSlugChar_of_digit c (hdig c hc)
  have hDne : natToDec i ≠ [] := natToDec_ne_nil i
  -- parts end with the decimal index, with a non-empty front
  have hparts : ∃ F, partsOf info = F ++ [String.mk (natToDec i)] ∧ F ≠ [] := by
    refine ⟨(if info.compPath ≠ "" then [compPathSlug info.compPath] else [])
      ++ [roleFor info.tag]
      ++ (let text := trimS (jsOrS info.text (jsOrS info.aria (jsOrS info.placeholder info.alt)))
          if text ≠ "" then [textToken text] else []), ?_, by simp⟩
    rw [partsOf, hidx]
  rcases hparts with ⟨F, hF, hFne⟩
  have hjoin : (joinDash (partsOf info)).data
      = (joinDash F).data ++ '-' :: natToDec i := by
    rw [hF, joinDash_snoc_data F _ hFne]
  have hmapD : (natToDec i).map lowerC = natToDec i := by
    have h1 : (natToDec i).map lowerC = (natToDec i).map id :=
      List.map_congr_left fun c hc => lowerC_digit c (hdig c hc)
    rw [h1, List.map_id]
  have hmap : (joinDash (partsOf info)).data.map lowerC
      = (joinDash F).data.map lowerC ++ '-' :: natToDec i := by
    rw [hjoin, List.map_append, List.map_cons, lowerC_dash, hmapD]
  have hcol := collapseGo_dash_suffix (natToDec i) hslug
    ((joinDash F).data.map lowerC) false
  have hform : (∃ W, collapseGo isSlugChar false
        ((joinDash (partsOf info)).data.map lowerC) = W ++ '-' :: natToDec i)
      ∨ collapseGo isSlugChar false ((joinDash (partsOf info)).data.map lowerC)
        = natToDec i := by
    rw [hmap]
    rcases hcol with ⟨W, hW⟩ | ⟨hb, _⟩
    · exact Or.inl ⟨W, hW⟩
    · exact absurd hb (by simp)
  have hstrip := stripEdgeDash_form _ (natToDec i) hDne hdig hform
  have htake : (generateTag info).data = stripEdgeDash (collapseGo isSlugChar false
      ((joinDash (partsOf info)).data.map lowerC)) := by
    show (slugify (joinDash (partsOf info))).data = _
    rw [slugify]
    show slugChars (joinDash (partsOf info)).data = _
    rw [slugChars]
    exact List.take_of_length_le hcut
  rw [htake]
  rcases hstrip with ⟨Y, hY⟩ | hstripD
  · rw [hY]
    exact digitSuffix_append_dash Y (natToDec i) hdig
  · rw [hstripD]
    exact digitSuffix_all (natToDec i) hdig

/-- Two uncut candidates with different ordinals never share a slug. -/
theorem generateTag_ne_of_index_ne (a b : TagInfo) (i j : Nat)
    (hia : a.index = some i) (hjb : b.index = some j) (hij : i ≠ j)
    (hca : uncut a) (hcb : uncut b) : generateTag a ≠ generateTag b := by
  intro heq
  have ha := generateTag_digitSuffix a i hia hca
  have hb := generateTag_digitSuffix b j hjb hcb
  rw [heq] at ha
  exact hij (natToDec_inj i j (by rw [← ha, ← hb]))

/-! ## The claims -/

/-- C1: a JSX element node (that is not skipped as a component
reference) is flagged interactive exactly when its lowercased tag is one
of button, a, input, select, textarea, or it carries a literal
`role="button"` attribute; and no element failing this condition is ever
emitted as a candidate. -/
theorem claim_C1_interactive_iff :
    (∀ (name : JSXName) (attrs : List JSXAttr), isComponentRef name = false →
        (isInteractive (tagOf name) attrs = true ↔ interactiveSpec name attrs = true))
    ∧ (∀ (name : JSXName) (attrs : List JSXAttr), emits name attrs = true →
        interactiveSpec name attrs = true) := by
  constructor
  · intro name attrs _
    cases name with
    | ident s => simp [isInteractive, interactiveSpec, tagOf]
    | other => simp [isInteractive, interactiveSpec, tagOf]
  · intro name attrs h
    simp only [emits, Bool.and_eq_true, Bool.not_eq_eq_eq_not, Bool.not_true] at h
    have hint : isInteractive (tagOf name) attrs = true := h.1.2
    cases name with
    | ident s => simpa [isInteractive, interactiveSpec, tagOf] using hint
    | other => simpa [isInteractive, interactiveSpec, tagOf] using hint

/-- Closed witness for C1 at a concrete element. -/
theorem claim_C1_interactive_iff_witness :
    (isInteractive (tagOf (JSXName.ident "button")) [] = true
       ↔ interactiveSpec (JSXName.ident "button") [] = true)
    ∧ interactiveSpec (JSXName.ident "a") [] = true :=
  ⟨claim_C1_interactive_iff.1 (JSXName.ident "button") [] (by decide),
   claim_C1_interactive_iff.2 (JSXName.ident "a") [] (by decide)⟩

/-- C2: an element whose tag identifier starts with an uppercase letter
is never emitted, whatever its attributes, and its children are still
traversed (the visit of such an element is exactly the visit of its
children). -/
theorem claim_C2_component_skip (s : String) (c : Char) (cs : List Char)
    (hdata : s.data = c :: cs) (hA : 'A' ≤ c) (hZ : c ≤ 'Z') :
    ∀ (attrs : List JSXAttr) (line : Option Nat) (children : List JSXNode)
      (file : String) (k : Nat),
      emits (JSXName.ident s) attrs = false
      ∧ scanNode file (JSXNode.element (JSXName.ident s) attrs line children) k
          = scanNodes file children k := by
  intro attrs line children file k
  have hcomp : isComponentRef (JSXName.ident s) = true := by
    simp [isComponentRef, hdata, hA, hZ]
  have hemit : emits (JSXName.ident s) attrs = false := by
    simp [emits, hcomp]
  exact ⟨hemit, by simp [scanNode, hemit]⟩

/-- Closed witness for C2: a `MyButton` element carrying `role="button"`
emits nothing and only recurses. -/
theorem claim_C2_component_skip_witness :
    emits (JSXName.ident "MyButton") [⟨some "role", AttrVal.lit "button"⟩] = false
    ∧ scanNode "f" (JSXNode.element (JSXName.ident "MyButton")
          [⟨some "role", AttrVal.lit "button"⟩] Option.none
          [JSXNode.element (JSXName.ident "a") [] Option.none []]) 0
        = scanNodes "f" [JSXNode.element (JSXName.ident "a") [] Option.none []] 0 :=
  claim_C2_component_skip "MyButton" 'M' ['y', 'B', 'u', 't', 't', 'o', 'n'] rfl
    (by decide) (by decide) [⟨some "role", AttrVal.lit "button"⟩] Option.none
    [JSXNode.element (JSXName.ident "a") [] Option.none []] "f" 0

/-- C3: the namer maps the anchor role to the literal token `link` and
leaves every other role unchanged, and produces the two specified slugs. -/
theorem claim_C3_role_map :
    roleFor "a" = "link"
    ∧ (∀ t : String, t ≠ "a" → roleFor t = t)
    ∧ generateTag { tag := "button", text := "Submit Form", index := some 0 }
        = "button-submit-form-0"
    ∧ generateTag { tag := "a", text := "Learn More", index := some 2 }
        = "link-learn-more-2" :=
  ⟨rfl, fun t ht => by simp [roleFor, ht], rfl, rfl⟩

/-- Closed witness for C3 on a non-anchor role. -/
theorem claim_C3_role_map_witness : roleFor "select" = "select" :=
  claim_C3_role_map.2.1 "select" (by decide)

/-- C5: an element already carrying `data-cy` is never emitted, and a
tree all of whose interactive elements carry `data-cy` yields an empty
candidate sequence. -/
theorem claim_C5_datacy_skip :
    (∀ (name : JSXName) (attrs : List JSXAttr),
        hasDataCy attrs = true → emits name attrs = false)
    ∧ (∀ (ast : List JSXNode) (code file : String),
        (∀ p ∈ allElemsNodes ast,
          isInteractive (tagOf p.1) p.2 = true → hasDataCy p.2 = true) →
        extractSuggestionsFromAST ast code file = []) := by
  constructor
  · intro name attrs h
    simp [emits, h]
  · intro ast code file h
    rw [extract_eq]
    have hall : ∀ p ∈ allElemsNodes ast, emits p.1 p.2 = false := by
      intro p hp
      by_cases hint : isInteractive (tagOf p.1) p.2 = true
      · simp [emits, h p hp hint]
      · have : isInteractive (tagOf p.1) p.2 = false := by
          simpa using hint
        simp [emits, this]
    rw [emitNodes_nil ast hall]
    rfl

/-- Closed witness for C5: a fully annotated tree produces nothing. -/
theorem claim_C5_datacy_skip_witness :
    emits (JSXName.ident "button") [⟨some "data-cy", AttrVal.lit "x"⟩] = false
    ∧ extractSuggestionsFromAST
        [JSXNode.element (JSXName.ident "button") [⟨some "data-cy", AttrVal.lit "x"⟩]
          (some 1)
          [JSXNode.element (JSXName.ident "a") [⟨some "data-cy", AttrVal.lit "y"⟩]
            (some 2) []]] "" "f" = [] :=
  ⟨claim_C5_datacy_skip.1 (JSXName.ident "button") [⟨some "data-cy", AttrVal.lit "x"⟩]
      (by decide),
   claim_C5_datacy_skip.2
      [JSXNode.element (JSXName.ident "button") [⟨some "data-cy", AttrVal.lit "x"⟩]
        (some 1)
        [JSXNode.element (JSXName.ident "a") [⟨some "data-cy", AttrVal.lit "y"⟩]
          (some 2) []]] "" "f" (by decide)⟩

/-- C8: the classifier and the namer are pure functions: the extracted
sequence does not depend on the unused raw-code argument nor on anything
but the tree, and repeated runs give identical results. -/
theorem claim_C8_deterministic :
    (∀ (ast : List JSXNode) (code1 code2 file : String),
        extractSuggestionsFromAST ast code1 file = extractSuggestionsFromAST ast code2 file)
    ∧ (∀ (ast : List JSXNode) (code file : String),
        extractSuggestionsFromAST ast code file = extractSuggestionsFromAST ast code file)
    ∧ (∀ info : TagInfo, generateTag info = generateTag info)
    ∧ (∀ files : List SourceFile, runScan files = runScan files) :=
  ⟨fun _ _ _ _ => rfl, fun _ _ _ => rfl, fun _ => rfl, fun _ => rfl⟩

/-- C4 counterexample: for a button whose only child is the string
literal expression `{" Hi "}`, the emitted textHint is the verbatim
`" Hi "`, while the claim's priority rule (first text-bearing child,
trimmed) prescribes `"Hi"`. -/
theorem claim_C4_counterexample :
    extractSuggestionsFromAST
        [JSXNode.element (JSXName.ident "button") [] Option.none
          [JSXNode.exprString " Hi "]] "" "f"
      = [{ file := "f", line := Option.none, tag := "button", text := " Hi ",
           dataCy := "button-hi-0" }]
    ∧ claimTextHint (tagOf (JSXName.ident "button")) [] [JSXNode.exprString " Hi "]
        = "Hi"
    ∧ (" Hi " : String) ≠ "Hi" :=
  ⟨rfl, rfl, by decide⟩

/-- C4 (amended): the textHint of every candidate the scanner builds is
the first non-empty value of: the first text-bearing child's literal
text (trimmed for plain text children, verbatim for string-literal
expression children), the last `aria-label`, `placeholder`, `alt` and
`title` attribute values, the tag itself, and the empty string — in that
priority order. -/
theorem claim_C4_texthint_priority (file : String) (name : JSXName)
    (attrs : List JSXAttr) (children : List JSXNode) (line : Option Nat) (k : Nat) :
    (mkSuggestion file name attrs children line k).text
      = specTextHint (tagOf name) attrs children := by
  show nameSource (tagOf name) attrs children = _
  exact nameSource_eq_spec (tagOf name) attrs children

/-- C6 counterexample: the namer splits on single spaces, not on
whitespace.  With a double space among the first five words, the claim's
recipe keeps five words while the code keeps four (one segment is
empty); the resulting slugs differ. -/
theorem claim_C6_counterexample :
    generateTag { tag := "button", text := "one two  three four five six", index := some 0 }
      = "button-one-two-three-four-0"
    ∧ String.mk (joinSp ((wsWords
        (firstLineC ("one two  three four five six" : String).data)).take 5))
      = "one two three four five"
    ∧ slugify (joinDash ["button", "one two three four five", "0"])
      = "button-one-two-three-four-five-0"
    ∧ generateTag { tag := "button", text := "one two  three four five six", index := some 0 }
      ≠ slugify (joinDash ["button", "one two three four five", "0"]) :=
  ⟨rfl, rfl, rfl, by decide⟩

/-- C6 (amended): the text token is the trimmed first line of the
trimmed textHint split at single space characters, truncated to five
segments and re-joined; whenever that line's whitespace consists of
single plain spaces only, this equals its first five
whitespace-separated words re-joined with single spaces. -/
theorem claim_C6_text_token (hint : String)
    (h1 : ∀ c ∈ trimC (firstLineC (trimC hint.data)), isJsWs c = true → c = ' ')
    (h2 : ∀ w ∈ splitSp (trimC (firstLineC (trimC hint.data))), w ≠ []) :
    textToken (trimS hint)
      = String.mk (joinSp ((wsWords (trimC (firstLineC (trimC hint.data)))).take 5)) := by
  have hw : wsWords (trimC (firstLineC (trimC hint.data)))
      = splitSp (trimC (firstLineC (trimC hint.data))) := by
    rw [wsWords, splitSp, wsWordsGo_eq_filter _ [] h1]
    rw [← splitSp]
    exact List.filter_eq_self.mpr (by simpa using h2)
  rw [hw]
  rfl

/-- Closed witness for C6 on a single-spaced six-word hint. -/
theorem claim_C6_text_token_witness :
    textToken (trimS "alpha beta gamma delta epsilon zeta")
      = String.mk (joinSp ((wsWords (trimC (firstLineC
          (trimC ("alpha beta gamma delta epsilon zeta" : String).data)))).take 5)) :=
  claim_C6_text_token "alpha beta gamma delta epsilon zeta" (by decide) (by decide)

/-- Strings with equal data are equal. -/
theorem strEq_of_data (a b : String) (h : a.data = b.data) : a = b :=
  congrArg String.mk h

/-- C7: for every role that is a non-empty token of `[a-z0-9]`
characters, any textHint and any ordinal, the namer yields a non-empty
slug; with an empty textHint the slug is role and ordinal alone. -/
theorem claim_C7_total_nonempty :
    (∀ (role hint : String) (i : Nat), role ≠ "" →
        (∀ c ∈ role.data, isSlugChar c = true) →
        generateTag { tag := role, text := hint, index := some i } ≠ "")
    ∧ generateTag { tag := "select", text := "", index := some 3 } = "select-3" := by
  constructor
  · intro role hint i hne hslug
    set info : TagInfo := { tag := role, text := hint, index := some i } with hinfo
    have hparts : partsOf info = roleFor role :: ((
        let text := trimS (jsOrS info.text (jsOrS info.aria (jsOrS info.placeholder info.alt)))
        if text ≠ "" then [textToken text] else []) ++ [String.mk (natToDec i)]) := by
      rw [partsOf]
      simp [hinfo]
    have hrole : ∃ c cs, (roleFor role).data = c :: cs ∧ isSlugChar c = true := by
      by_cases ha : role = "a"
      · exact ⟨'l', ['i', 'n', 'k'], by simp [roleFor, ha], by decide⟩
      · have hd : role.data ≠ [] := by
          intro hnil
          exact hne (strEq_of_data role "" hnil)
        cases hdata : role.data with
        | nil => exact absurd hdata hd
        | cons c cs =>
            refine ⟨c, cs, by simp [roleFor, ha, hdata], ?_⟩
            exact hslug c (by simp [hdata])
    rcases hrole with ⟨c, cs, hdata, hc⟩
    intro hcontra
    have hdatae : (generateTag info).data = [] := by
      rw [hcontra]
    rw [generateTag, slugify] at hdatae
    have hthis : slugChars (joinDash (partsOf info)).data = [] := hdatae
    rw [hparts] at hthis
    rcases joinDash_cons_data (roleFor role)
        ((let text := trimS (jsOrS info.text (jsOrS info.aria (jsOrS info.placeholder info.alt)))
          if text ≠ "" then [textToken text] else []) ++ [String.mk (natToDec i)])
      with ⟨t, ht⟩
    rw [ht, hdata] at hthis
    exact slugChars_ne_nil c (cs ++ t) hc hthis
  · rfl

/-- Closed witness for C7 at a concrete triple. -/
theorem claim_C7_total_nonempty_witness :
    generateTag { tag := "input", text := "hello world", index := some 7 } ≠ "" :=
  claim_C7_total_nonempty.1 "input" "hello world" 7 (by decide) (by decide)

/-- Suggestion lookup by position: the record at position `i` is built
from the `i`-th emitted element with ordinal `k + i`. -/
theorem mkFrom_getq (file : String) (k : Nat) (rs : List EmitRec) (i : Nat) :
    (mkFrom file k rs)[i]? = (rs[i]?).map
      (fun r => mkSuggestion file r.name r.attrs r.children r.line (k + i)) := by
  induction rs generalizing k i with
  | nil => simp [mkFrom]
  | cons r rest ih =>
      cases i with
      | zero => simp [mkFrom]
      | succ j =>
          simp only [mkFrom, List.getElem?_cons_succ]
          rw [ih (k + 1) j]
          have harith : k + 1 + j = k + (j + 1) := by omega
          rw [harith]

/-- Positions in the extracted sequence carry their own index as ordinal. -/
theorem extract_getq (ast : List JSXNode) (code file : String) (i : Nat) :
    (extractSuggestionsFromAST ast code file)[i]?
      = ((emitNodes ast)[i]?).map
          (fun r => mkSuggestion file r.name r.attrs r.children r.line i) := by
  rw [extract_eq, mkFrom_getq]
  simp

/-- The slug of the suggestion at position `i` was generated from that
suggestion's tag and text with ordinal `i`. -/
theorem extract_dataCy (ast : List JSXNode) (code file : String) (i : Nat)
    (s : Suggestion) (hs : (extractSuggestionsFromAST ast code file)[i]? = some s) :
    s.dataCy = generateTag { tag := s.tag, text := s.text, index := some i } := by
  rw [extract_getq] at hs
  cases hr : (emitNodes ast)[i]? with
  | none =>
      rw [hr] at hs
      simp at hs
  | some r =>
      rw [hr] at hs
      simp only [Option.map] at hs
      have hsr : mkSuggestion file r.name r.attrs r.children r.line i = s :=
        Option.some.inj hs
      rw [← hsr]
      simp [mkSuggestion]

/-- Concatenation of per-file scans in normal form. -/
theorem runScan_flatten (files : List SourceFile) :
    runScan files
      = (files.map (fun f => extractSuggestionsFromAST f.ast f.code f.file)).flatten := by
  have aux : ∀ (fs : List SourceFile) (acc : List Suggestion),
      fs.foldl (fun acc f => acc ++ extractSuggestionsFromAST f.ast f.code f.file) acc
        = acc ++ (fs.map (fun f => extractSuggestionsFromAST f.ast f.code f.file)).flatten := by
    intro fs
    induction fs with
    | nil => intro acc; simp
    | cons f fs ih => intro acc; simp [ih, List.append_assoc]
  have := aux files []
  simpa [runScan] using this

/-- C9 counterexample.  First conjunct: one run over two files each
containing the same bare button yields two distinct candidates with the
identical slug `button-hi-0` (ordinals restart per file).  Second
conjunct: within a single file, two buttons labelled by the same
60-character word produce two distinct candidates whose slugs coincide,
because the 60-character cap cuts the ordinal off. -/
theorem claim_C9_counterexample :
    (runScan
        [⟨"a.jsx", "", [JSXNode.element (JSXName.ident "button") [] (some 1)
            [JSXNode.text "Hi"]]⟩,
         ⟨"b.jsx", "", [JSXNode.element (JSXName.ident "button") [] (some 1)
            [JSXNode.text "Hi"]]⟩]
      = [{ file := "a.jsx", line := some 1, tag := "button", text := "Hi",
           dataCy := "button-hi-0" },
         { file := "b.jsx", line := some 1, tag := "button", text := "Hi",
           dataCy := "button-hi-0" }]
      ∧ ({ file := "a.jsx", line := some 1, tag := "button", text := "Hi",
           dataCy := "button-hi-0" } : Suggestion)
        ≠ { file := "b.jsx", line := some 1, tag := "button", text := "Hi",
            dataCy := "button-hi-0" })
    ∧ (extractSuggestionsFromAST
        [JSXNode.element (JSXName.ident "button") [] (some 1)
           [JSXNode.text "xxxxxxxxxxxxxxxxxxxxxxxxxxxxxxxxxxxxxxxxxxxxxxxxxxxxxxxxxxxx"],
         JSXNode.element (JSXName.ident "button") [] (some 2)
           [JSXNode.text "xxxxxxxxxxxxxxxxxxxxxxxxxxxxxxxxxxxxxxxxxxxxxxxxxxxxxxxxxxxx"]] "" "f"
      = [{ file := "f", line := some 1, tag := "button",
           text := "xxxxxxxxxxxxxxxxxxxxxxxxxxxxxxxxxxxxxxxxxxxxxxxxxxxxxxxxxxxx",
           dataCy := "button-xxxxxxxxxxxxxxxxxxxxxxxxxxxxxxxxxxxxxxxxxxxxxxxxxxxxx" },
         { file := "f", line := some 2, tag := "button",
           text := "xxxxxxxxxxxxxxxxxxxxxxxxxxxxxxxxxxxxxxxxxxxxxxxxxxxxxxxxxxxx",
           dataCy := "button-xxxxxxxxxxxxxxxxxxxxxxxxxxxxxxxxxxxxxxxxxxxxxxxxxxxxx" }]
      ∧ (some 1 : Option Nat) ≠ some 2) :=
  ⟨⟨rfl, by decide⟩, ⟨rfl, by decide⟩⟩

/-- C9 (amended): within one file's scan, two candidates at different
positions whose slugs are not cut by the 60-character cap have distinct
slugs — the ordinal tie-breaker guarantees uniqueness only per file and
only below the truncation limit. -/
theorem claim_C9_slug_unique (ast : List JSXNode) (code file : String)
    (i j : Nat) (si sj : Suggestion)
    (hi : (extractSuggestionsFromAST ast code file)[i]? = some si)
    (hj : (extractSuggestionsFromAST ast code file)[j]? = some sj)
    (hij : i ≠ j)
    (hui : uncut { tag := si.tag, text := si.text, index := some i })
    (huj : uncut { tag := sj.tag, text := sj.text, index := some j }) :
    si.dataCy ≠ sj.dataCy := by
  rw [extract_dataCy ast code file i si hi, extract_dataCy ast code file j sj hj]
  exact generateTag_ne_of_index_ne _ _ i j rfl rfl hij hui huj

/-- Closed witness for C9 on a two-candidate file. -/
theorem claim_C9_slug_unique_witness :
    ({ file := "f", line := some 1, tag := "button", text := "Hi",
       dataCy := "button-hi-0" } : Suggestion).dataCy
    ≠ ({ file := "f", line := some 2, tag := "a", text := "Go",
         dataCy := "link-go-1" } : Suggestion).dataCy :=
  claim_C9_slug_unique
    [JSXNode.element (JSXName.ident "button") [] (some 1) [JSXNode.text "Hi"],
     JSXNode.element (JSXName.ident "a") [] (some 2) [JSXNode.text "Go"]] "" "f"
    0 1
    { file := "f", line := some 1, tag := "button", text := "Hi",
      dataCy := "button-hi-0" }
    { file := "f", line := some 2, tag := "a", text := "Go",
      dataCy := "link-go-1" }
    rfl rfl (by decide) (by decide) (by decide)

/-- C10: each emitted candidate's ordinal is its zero-based position in
its file's output sequence — the slug at position `i` is generated from
that record's tag and text with ordinal exactly `i` — and a run is the
plain concatenation of per-file scans, each starting again from 0. -/
theorem claim_C10_per_file_ordinals :
    (∀ (ast : List JSXNode) (code file : String) (i : Nat) (s : Suggestion),
        (extractSuggestionsFromAST ast code file)[i]? = some s →
        s.dataCy = generateTag { tag := s.tag, text := s.text, index := some i })
    ∧ (∀ files : List SourceFile,
        runScan files
          = (files.map (fun f => extractSuggestionsFromAST f.ast f.code f.file)).flatten) :=
  ⟨extract_dataCy, runScan_flatten⟩

/-- Closed witness for C10 at position 1 of a two-element file. -/
theorem claim_C10_per_file_ordinals_witness :
    ({ file := "f", line := some 2, tag := "a", text := "Go",
       dataCy := "link-go-1" } : Suggestion).dataCy
      = generateTag { tag := "a", text := "Go", index := some 1 } :=
  claim_C10_per_file_ordinals.1
    [JSXNode.element (JSXName.ident "button") [] (some 1) [JSXNode.text "Hi"],
     JSXNode.element (JSXName.ident "a") [] (some 2) [JSXNode.text "Go"]] "" "f"
    1
    { file := "f", line := some 2, tag := "a", text := "Go", dataCy := "link-go-1" }
    rfl
